import Mathlib

/-!
Verification of the register-allocation core of the vISA GPU compiler
backend (GraphColor.h, SpillCode.h, PhyRegCompute.cpp).

The development shallowly embeds the data structures and operations of the
source: the interference matrix (dense word matrix / sparse per-row bit
sets), the upper-triangular edge-insertion operations, the sub-register
alignment refinement, the physical-register offset computation, and — for
components whose bodies live outside the present headers — models written
from the design document (the augmentation SIMD-mask rule, the graph
coloring assignment loop, the spill-and-retry driver, and the live-interval
sort).  Machine integers are embedded as `Nat` with explicit `% 2 ^ 32`
where C++ unsigned overflow matters.
-/

namespace VISA

/-- BITS_DWORD from GraphColor.h: the dense matrix stores 32 interference
bits per word. -/
def BITS_DWORD : Nat := 32

/-- Value of `std::numeric_limits<unsigned int>::max()` used by
`Interference::useDenseMatrix`. -/
def UINT_MAX : Nat := 4294967295

/-- Construction-time parameters of class `Interference` that decide the
matrix representation: `maxId` (number of live ranges), `rowSize`
(words per dense row) and `denseMatrixLimit` (configured size threshold).
All three are fixed at construction (`const` members / set in the
constructor) and never change afterwards. -/
structure IntfParams where
  maxId : Nat
  rowSize : Nat
  denseMatrixLimit : Nat

/-- `Interference::useDenseMatrix` from GraphColor.h:
computes `rowSize * maxId` in 64-bit arithmetic (exact on `Nat` since both
factors are 32-bit unsigned) and returns
`(maxId < denseMatrixLimit) && (size < UINT_MAX)`. -/
def useDenseMatrix (p : IntfParams) : Bool :=
  decide (p.maxId < p.denseMatrixLimit) && decide (p.rowSize * p.maxId < UINT_MAX)

/-- State of the interference storage.  The dense representation is the
flat word array `matrix` (word index to 32-bit word value); the sparse
representation is one bit set per row (`sparseMatrix`).  Which half is
consulted is decided by `useDenseMatrix`, exactly as in the source. -/
structure IntfState where
  matrix : Nat → Nat
  sparseMatrix : Nat → Nat → Bool

/-- Interference storage as produced by `Interference::init`:
either the dense zero-initialized word array `new uint32_t[rowSize*maxId]()`
or the sparse row vector resized to `maxId` empty bit sets. -/
inductive IntfRep where
  | dense (words : Nat) (matrix : Nat → Nat)
  | sparse (rows : Nat) (sparseMatrix : Nat → Nat → Bool)

/-- `Interference::init` from GraphColor.h: picks the representation by
`useDenseMatrix()` and allocates it; both branches are plain allocations,
neither raises an error. -/
def Interference.init (p : IntfParams) : IntfRep :=
  if useDenseMatrix p then
    .dense (p.rowSize * p.maxId) (fun _ => 0)
  else
    .sparse p.maxId (fun _ _ => false)

/-- `Interference::safeSetInterference` from GraphColor.h (assumes v1 < v2):
dense path sets bit `v2 % 32` of word `v1 * rowSize + v2 / 32`;
sparse path sets bit `v2` of row `v1`. -/
def safeSetInterference (p : IntfParams) (st : IntfState) (v1 v2 : Nat) : IntfState :=
  if useDenseMatrix p then
    { st with
      matrix := fun i =>
        if i = v1 * p.rowSize + v2 / BITS_DWORD then
          st.matrix i ||| (1 <<< (v2 % BITS_DWORD))
        else st.matrix i }
  else
    { st with
      sparseMatrix := fun r c =>
        if r = v1 ∧ c = v2 then true else st.sparseMatrix r c }

/-- `Interference::checkAndSetIntf` from GraphColor.h:
inserts in the row of the smaller id with the larger id as column, and
does nothing when the two ids are equal. -/
def checkAndSetIntf (p : IntfParams) (st : IntfState) (v1 v2 : Nat) : IntfState :=
  if v1 < v2 then
    safeSetInterference p st v1 v2
  else if v2 < v1 then
    safeSetInterference p st v2 v1
  else st

/-- Folding `checkAndSetIntf` over a list of id pairs; models rebuilding
the interference graph from the edge events an unmodified instruction
stream generates. -/
def buildEdges (p : IntfParams) (st : IntfState) (es : List (Nat × Nat)) : IntfState :=
  es.foldl (fun s e => checkAndSetIntf p s e.1 e.2) st

/-- The all-zero interference state (fresh dense matrix and empty sparse
rows), used for concrete witnesses. -/
def emptyIntf : IntfState :=
  { matrix := fun _ => 0, sparseMatrix := fun _ _ => false }

theorem safeSet_idem (p : IntfParams) (st : IntfState) (v1 v2 : Nat) :
    safeSetInterference p (safeSetInterference p st v1 v2) v1 v2 =
      safeSetInterference p st v1 v2 := by
  unfold safeSetInterference
  by_cases h : useDenseMatrix p = true
  · simp only [h, if_true]
    congr 1
    funext i
    by_cases hi : i = v1 * p.rowSize + v2 / BITS_DWORD
    · simp only [hi, if_pos rfl, if_true, Nat.lor_assoc, Nat.or_self]
    · simp only [if_neg hi]
  · simp only [h, Bool.false_eq_true, if_false]
    congr 1
    funext r c
    by_cases hrc : r = v1 ∧ c = v2
    · simp only [hrc.1, hrc.2, and_self, if_true]
    · simp only [if_neg hrc]

theorem checkAndSet_idem (p : IntfParams) (st : IntfState) (v1 v2 : Nat) :
    checkAndSetIntf p (checkAndSetIntf p st v1 v2) v1 v2 =
      checkAndSetIntf p st v1 v2 := by
  unfold checkAndSetIntf
  by_cases h12 : v1 < v2
  · simp only [if_pos h12, safeSet_idem]
  · by_cases h21 : v2 < v1
    · simp only [if_neg h12, if_pos h21, safeSet_idem]
    · simp only [if_neg h12, if_neg h21]

/-- C5: interference storage is upper-triangular: for distinct ids the edge
is recorded via `safeSetInterference` on the row of the smaller id with the
larger id as column; the operation is symmetric in its two arguments; and
inserting an edge from an id to itself leaves the state unchanged, so no
self-edge is ever stored. -/
theorem checkAndSetIntf_upper_triangular (p : IntfParams) (st : IntfState) :
    (∀ v1 v2, v1 ≠ v2 →
      checkAndSetIntf p st v1 v2 =
        safeSetInterference p st (min v1 v2) (max v1 v2)) ∧
    (∀ v1 v2, checkAndSetIntf p st v1 v2 = checkAndSetIntf p st v2 v1) ∧
    (∀ v, checkAndSetIntf p st v v = st) := by
  refine ⟨?_, ?_, ?_⟩
  · intro v1 v2 hne
    unfold checkAndSetIntf
    rcases Nat.lt_or_ge v1 v2 with h | h
    · rw [if_pos h, Nat.min_eq_left (Nat.le_of_lt h), Nat.max_eq_right (Nat.le_of_lt h)]
    · have h' : v2 < v1 := Nat.lt_of_le_of_ne h (fun he => hne he.symm)
      rw [if_neg (Nat.not_lt.mpr h), if_pos h', Nat.min_eq_right (Nat.le_of_lt h'),
        Nat.max_eq_left (Nat.le_of_lt h')]
  · intro v1 v2
    unfold checkAndSetIntf
    rcases Nat.lt_trichotomy v1 v2 with h | h | h
    · rw [if_pos h, if_neg (Nat.lt_asymm h), if_pos h]
    · subst h
      rw [if_neg (Nat.lt_irrefl v1)]
    · rw [if_neg (Nat.lt_asymm h), if_pos h, if_pos h]
  · intro v
    unfold checkAndSetIntf
    rw [if_neg (Nat.lt_irrefl v), if_neg (Nat.lt_irrefl v)]

/-- Closed witness for C5 at a concrete input: parameters of a small dense
matrix, the empty state, and the id pair (2, 5). -/
theorem checkAndSetIntf_upper_triangular_witness :
    checkAndSetIntf ⟨8, 1, 100⟩ emptyIntf 5 2 =
      safeSetInterference ⟨8, 1, 100⟩ emptyIntf 2 5 := by
  have h := (checkAndSetIntf_upper_triangular ⟨8, 1, 100⟩ emptyIntf).1 5 2 (by decide)
  simpa using h

theorem safeSet_comm (p : IntfParams) (st : IntfState) (a b c d : Nat) :
    safeSetInterference p (safeSetInterference p st a b) c d =
      safeSetInterference p (safeSetInterference p st c d) a b := by
  unfold safeSetInterference
  by_cases h : useDenseMatrix p = true
  · simp only [h, if_true]
    congr 1
    funext i
    by_cases h1 : i = a * p.rowSize + b / BITS_DWORD <;>
      by_cases h2 : i = c * p.rowSize + d / BITS_DWORD
    · simp only [if_pos h1, if_pos h2]
      rw [Nat.lor_assoc, Nat.lor_assoc, Nat.lor_comm (1 <<< (b % BITS_DWORD))]
    · simp only [if_pos h1, if_neg h2]
    · simp only [if_neg h1, if_pos h2]
    · simp only [if_neg h1, if_neg h2]
  · simp only [h, Bool.false_eq_true, if_false]
    congr 1
    funext r q
    by_cases h1 : r = a ∧ q = b <;> by_cases h2 : r = c ∧ q = d
    · simp only [if_pos h1, if_pos h2]
    · simp only [if_pos h1, if_neg h2]
    · simp only [if_neg h1, if_pos h2]
    · simp only [if_neg h1, if_neg h2]

theorem checkAndSet_comm (p : IntfParams) (st : IntfState) (a b c d : Nat) :
    checkAndSetIntf p (checkAndSetIntf p st a b) c d =
      checkAndSetIntf p (checkAndSetIntf p st c d) a b := by
  unfold checkAndSetIntf
  by_cases hab : a < b <;> by_cases hba : b < a <;>
    by_cases hcd : c < d <;> by_cases hdc : d < c <;>
      simp only [hab, hba, hcd, hdc, if_true, if_false, if_pos, if_neg,
        not_false_iff, safeSet_comm]

theorem buildEdges_insert_comm (p : IntfParams) (es : List (Nat × Nat))
    (st : IntfState) (a b : Nat) :
    buildEdges p (checkAndSetIntf p st a b) es =
      checkAndSetIntf p (buildEdges p st es) a b := by
  induction es generalizing st with
  | nil => rfl
  | cons e t ih =>
      simp only [buildEdges, List.foldl_cons] at *
      rw [checkAndSet_comm p st a b e.1 e.2, ih]

theorem buildEdges_idem (p : IntfParams) (es : List (Nat × Nat)) (st : IntfState) :
    buildEdges p (buildEdges p st es) es = buildEdges p st es := by
  induction es generalizing st with
  | nil => rfl
  | cons e t ih =>
      show buildEdges p
          (checkAndSetIntf p (buildEdges p (checkAndSetIntf p st e.1 e.2) t) e.1 e.2) t =
        buildEdges p (checkAndSetIntf p st e.1 e.2) t
      rw [buildEdges_insert_comm p t (buildEdges p (checkAndSetIntf p st e.1 e.2) t) e.1 e.2]
      rw [ih (checkAndSetIntf p st e.1 e.2)]
      rw [← buildEdges_insert_comm p t (checkAndSetIntf p st e.1 e.2) e.1 e.2]
      rw [checkAndSet_idem]

/-- C6: edge insertion is idempotent in both representations: re-inserting
the same edge via `safeSetInterference` or `checkAndSetIntf` leaves the
state bit-identical, and replaying the whole edge stream of an unmodified
instruction stream a second time yields a bit-identical matrix. -/
theorem setInterference_idempotent (p : IntfParams) (st : IntfState) :
    (∀ v1 v2, safeSetInterference p (safeSetInterference p st v1 v2) v1 v2 =
      safeSetInterference p st v1 v2) ∧
    (∀ v1 v2, checkAndSetIntf p (checkAndSetIntf p st v1 v2) v1 v2 =
      checkAndSetIntf p st v1 v2) ∧
    (∀ es : List (Nat × Nat),
      buildEdges p (buildEdges p st es) es = buildEdges p st es) :=
  ⟨fun v1 v2 => safeSet_idem p st v1 v2,
   fun v1 v2 => checkAndSet_idem p st v1 v2,
   fun es => buildEdges_idem p es st⟩

/-- C4: above the size threshold the sparse representation is forced
silently.  If the 64-bit product `rowSize * maxId` reaches the unsigned-int
range boundary or `maxId` reaches `denseMatrixLimit`, `useDenseMatrix` is
false and `init` builds the sparse per-row representation (a total
function: no error is raised); the representation choice depends only on
the three construction-time parameters; and below the configured limit the
exact overflow boundary is the comparison of the 64-bit product against
`UINT_MAX`. -/
theorem useDenseMatrix_capacity_fallback :
    (∀ p : IntfParams,
      UINT_MAX ≤ p.rowSize * p.maxId ∨ p.denseMatrixLimit ≤ p.maxId →
      useDenseMatrix p = false ∧
        Interference.init p = .sparse p.maxId (fun _ _ => false)) ∧
    (∀ p q : IntfParams, p.maxId = q.maxId → p.rowSize = q.rowSize →
      p.denseMatrixLimit = q.denseMatrixLimit →
      useDenseMatrix p = useDenseMatrix q) ∧
    (∀ p : IntfParams, p.maxId < p.denseMatrixLimit →
      (useDenseMatrix p = true ↔ p.rowSize * p.maxId < UINT_MAX)) := by
  refine ⟨?_, ?_, ?_⟩
  · intro p h
    have hfalse : useDenseMatrix p = false := by
      unfold useDenseMatrix
      rcases h with h | h
      · simp [Nat.not_lt.mpr h]
      · simp [Nat.not_lt.mpr h]
    refine ⟨hfalse, ?_⟩
    unfold Interference.init
    rw [hfalse]
    simp
  · intro p q h1 h2 h3
    unfold useDenseMatrix
    rw [h1, h2, h3]
  · intro p h
    unfold useDenseMatrix
    simp [h]

/-- Closed witness for C4: with `rowSize * maxId = UINT_MAX` exactly the
dense matrix is rejected and `init` produces the sparse representation. -/
theorem useDenseMatrix_capacity_fallback_witness :
    useDenseMatrix ⟨65537, 65535, 100000⟩ = false ∧
      Interference.init ⟨65537, 65535, 100000⟩ =
        .sparse 65537 (fun _ _ => false) :=
  useDenseMatrix_capacity_fallback.1 ⟨65537, 65535, 100000⟩ (Or.inl (by norm_num [UINT_MAX]))

/-- Numeric value of `G4_SubReg_Align::Any`, the least restrictive
alignment.  The enum (declared in G4_IR.hpp, outside the present headers)
encodes each alignment as its word count, with `Any = 1` so that the
modulo tests in `GlobalRA::setSubRegAlign` are meaningful. -/
def AnyAlign : Nat := 1

/-- `GlobalRA::setSubRegAlign` from GraphColor.h, acting on the stored
alignment of one declare.  `subAlign` is the currently stored value,
`subAlg` the requested one; the result is the new stored value, or `none`
when one of the two `vISA_ASSERT`s fires.  The first assertion is
`subAlign == Any || subAlign == subAlg || subAlign % 2 == 0`; then if the
stored value is numerically larger it is kept (asserting
`subAlign % subAlg == 0`), otherwise the requested value is stored
(asserting `subAlg % subAlign == 0`). -/
def setSubRegAlign (subAlign subAlg : Nat) : Option Nat :=
  if subAlign = AnyAlign ∨ subAlign = subAlg ∨ subAlign % 2 = 0 then
    if subAlg < subAlign then
      if subAlign % subAlg = 0 then some subAlign else none
    else
      if subAlg % subAlign = 0 then some subAlg else none
  else none

/-- C9: alignment refinement is monotone.  For positive alignments whose
stored value satisfies the representation invariant (it is `Any` or even,
as every value of the C++ enum is): if the requested alignment divides the
stored one, the stored (stricter) value is kept; if the stored divides the
requested, the requested value is stored; every successful result is a
common multiple of both (never less restrictive than either); a repeated
call with the same request is idempotent; and incompatible alignments
(neither dividing the other) hit the internal assertion instead of
silently overwriting. -/
theorem setSubRegAlign_monotone (cur req : Nat) (hcur : 0 < cur) (hreq : 0 < req)
    (hinv : cur = AnyAlign ∨ cur % 2 = 0) :
    (req ∣ cur → setSubRegAlign cur req = some cur) ∧
    (cur ∣ req → setSubRegAlign cur req = some req) ∧
    (∀ res, setSubRegAlign cur req = some res → cur ∣ res ∧ req ∣ res) ∧
    (∀ res, setSubRegAlign cur req = some res →
      setSubRegAlign res req = some res) ∧
    (¬req ∣ cur → ¬cur ∣ req → setSubRegAlign cur req = none) := by
  have hassert : cur = AnyAlign ∨ cur = req ∨ cur % 2 = 0 := by
    rcases hinv with h | h
    · exact Or.inl h
    · exact Or.inr (Or.inr h)
  have hres : ∀ res, setSubRegAlign cur req = some res → res = cur ∨ res = req := by
    intro res h
    unfold setSubRegAlign at h
    rw [if_pos hassert] at h
    by_cases hlt : req < cur
    · rw [if_pos hlt] at h
      by_cases hm : cur % req = 0
      · rw [if_pos hm] at h
        exact Or.inl (Option.some.inj h).symm
      · rw [if_neg hm] at h
        exact absurd h (by simp)
    · rw [if_neg hlt] at h
      by_cases hm : req % cur = 0
      · rw [if_pos hm] at h
        exact Or.inr (Option.some.inj h).symm
      · rw [if_neg hm] at h
        exact absurd h (by simp)
  have hkeep : req ∣ cur → setSubRegAlign cur req = some cur := by
    intro hdvd
    unfold setSubRegAlign
    rw [if_pos hassert]
    rcases Nat.lt_or_ge req cur with hlt | hge
    · rw [if_pos hlt, if_pos (Nat.eq_zero_of_dvd_of_lt hdvd |> fun _ => Nat.mod_eq_zero_of_dvd hdvd)]
    · have heq : req = cur := Nat.le_antisymm (Nat.le_of_dvd hcur hdvd) hge
      subst heq
      rw [if_neg (Nat.lt_irrefl req), if_pos (Nat.mod_self req)]
  have hstore : cur ∣ req → setSubRegAlign cur req = some req := by
    intro hdvd
    unfold setSubRegAlign
    rw [if_pos hassert]
    have hge : cur ≤ req := Nat.le_of_dvd hreq hdvd
    rw [if_neg (Nat.not_lt.mpr hge), if_pos (Nat.mod_eq_zero_of_dvd hdvd)]
  refine ⟨hkeep, hstore, ?_, ?_, ?_⟩
  · intro res h
    have h0 := hres res h
    unfold setSubRegAlign at h
    rw [if_pos hassert] at h
    by_cases hlt : req < cur
    · rw [if_pos hlt] at h
      by_cases hm : cur % req = 0
      · rw [if_pos hm] at h
        have : res = cur := (Option.some.inj h).symm
        subst this
        exact ⟨Nat.dvd_refl _, Nat.dvd_of_mod_eq_zero hm⟩
      · rw [if_neg hm] at h
        exact absurd h (by simp)
    · rw [if_neg hlt] at h
      by_cases hm : req % cur = 0
      · rw [if_pos hm] at h
        have : res = req := (Option.some.inj h).symm
        subst this
        exact ⟨Nat.dvd_of_mod_eq_zero hm, Nat.dvd_refl _⟩
      · rw [if_neg hm] at h
        exact absurd h (by simp)
  · intro res h
    rcases hres res h with hc | hr
    · rw [hc] at h ⊢
      unfold setSubRegAlign at h
      rw [if_pos hassert] at h
      by_cases hlt : req < cur
      · rw [if_pos hlt] at h
        by_cases hm : cur % req = 0
        · exact hkeep (Nat.dvd_of_mod_eq_zero hm)
        · rw [if_neg hm] at h
          exact absurd h (by simp)
      · rw [if_neg hlt] at h
        by_cases hm : req % cur = 0
        · rw [if_pos hm] at h
          have heq : req = cur := Option.some.inj h
          have hdvd : req ∣ cur := by
            rw [← heq]
          exact hkeep hdvd
        · rw [if_neg hm] at h
          exact absurd h (by simp)
    · rw [hr]
      unfold setSubRegAlign
      rw [if_pos (Or.inr (Or.inl rfl)), if_neg (Nat.lt_irrefl req),
        if_pos (Nat.mod_self req)]
  · intro h1 h2
    unfold setSubRegAlign
    rw [if_pos hassert]
    rcases Nat.lt_or_ge req cur with hlt | hge
    · rw [if_pos hlt, if_neg (fun hm => h1 (Nat.dvd_of_mod_eq_zero hm))]
    · rw [if_neg (Nat.not_lt.mpr hge), if_neg (fun hm => h2 (Nat.dvd_of_mod_eq_zero hm))]

/-- Closed witness for C9 at concrete inputs: stored alignment 4,
requested 2 keeps the stricter 4; stored 4 with incompatible request 6
triggers the assertion. -/
theorem setSubRegAlign_monotone_witness :
    setSubRegAlign 4 2 = some 4 ∧ setSubRegAlign 4 6 = none :=
  ⟨(setSubRegAlign_monotone 4 2 (by decide) (by decide) (Or.inr (by decide))).1
      (by decide),
   (setSubRegAlign_monotone 4 6 (by decide) (by decide)
      (Or.inr (by decide))).2.2.2.2 (by decide) (by decide)⟩

/-- Modulus of C++ `unsigned int` arithmetic. -/
def UINT_MOD : Nat := 4294967296

/-- The slice of a `G4_SrcRegRegion` / `G4_DstRegRegion` operand read and
written by `computePReg` (PhyRegCompute.cpp): whether the base is a
register variable, whether that variable has a physical register assigned,
whether the physical register is a GRF, the GRF number, the variable's
sub-register offset, the declare's element size, the operand type's size,
and the declare's mutable GRF base offset. -/
structure OperandState where
  baseIsRegVar : Bool
  basePhyRegAssigned : Bool
  basePhyRegIsGreg : Bool
  regNum : Nat
  phyRegOff : Nat
  declElemSize : Nat
  typeSize : Nat
  grfBaseOffset : Nat

/-- `G4_SrcRegRegion::computePReg` from PhyRegCompute.cpp.  `bytesPerGRF`
is `numEltPerGRF<Type_UB>()`.  The operand type size is computed up front;
when the base is a physical-register-assigned register variable whose
physical register is a GRF, the sub-register offset is rescaled to operand
type units when the sizes differ, and the declare's GRF base offset is set
to the linearized byte address; otherwise nothing is modified. -/
def G4_SrcRegRegion.computePReg (bytesPerGRF : Nat) (s : OperandState) : OperandState :=
  let thisOpSize := s.typeSize
  if s.baseIsRegVar && s.basePhyRegAssigned then
    if s.basePhyRegIsGreg then
      let regNum := s.regNum
      let subRegNum := s.phyRegOff
      let declOpSize := s.declElemSize
      let subRegNum :=
        if thisOpSize ≠ declOpSize then
          (subRegNum * declOpSize) % UINT_MOD / thisOpSize
        else subRegNum
      let linearizedStart := (regNum * bytesPerGRF + subRegNum * thisOpSize) % UINT_MOD
      { s with grfBaseOffset := linearizedStart }
    else s
  else s

/-- `G4_DstRegRegion::computePReg` from PhyRegCompute.cpp, transcribed
independently of the source-region version: the operand type size is
computed inside the GRF branch, after the register number and sub-register
offset are read. -/
def G4_DstRegRegion.computePReg (bytesPerGRF : Nat) (s : OperandState) : OperandState :=
  if s.baseIsRegVar && s.basePhyRegAssigned then
    if s.basePhyRegIsGreg then
      let regNum := s.regNum
      let subRegNum := s.phyRegOff
      let declOpSize := s.declElemSize
      let thisOpSize := s.typeSize
      let subRegNum :=
        if thisOpSize ≠ declOpSize then
          (subRegNum * declOpSize) % UINT_MOD / thisOpSize
        else subRegNum
      let linearizedStart := (regNum * bytesPerGRF + subRegNum * thisOpSize) % UINT_MOD
      { s with grfBaseOffset := linearizedStart }
    else s
  else s

/-- C10: `G4_SrcRegRegion::computePReg` and `G4_DstRegRegion::computePReg`
compute the identical function; on a physical-register-assigned GRF base
both set the declare's GRF base offset to
`regNum * bytesPerGRF + subRegNum * typeSize` (32-bit unsigned arithmetic)
with `subRegNum` rescaled by `(subRegNum * declElemSize) / typeSize`
exactly when the operand type size differs from the declare's element
size, touching no other field; when the base is not a
physical-register-assigned register variable or its physical register is
not a GRF, neither function modifies any state. -/
theorem computePReg_src_dst_equiv (bytesPerGRF : Nat) (s : OperandState) :
    G4_DstRegRegion.computePReg bytesPerGRF s =
      G4_SrcRegRegion.computePReg bytesPerGRF s ∧
    (s.baseIsRegVar = true → s.basePhyRegAssigned = true →
      s.basePhyRegIsGreg = true →
      G4_SrcRegRegion.computePReg bytesPerGRF s =
        { s with
          grfBaseOffset :=
            (s.regNum * bytesPerGRF +
              (if s.typeSize ≠ s.declElemSize then
                (s.phyRegOff * s.declElemSize) % UINT_MOD / s.typeSize
              else s.phyRegOff) * s.typeSize) % UINT_MOD }) ∧
    ((s.baseIsRegVar = false ∨ s.basePhyRegAssigned = false ∨
        s.basePhyRegIsGreg = false) →
      G4_SrcRegRegion.computePReg bytesPerGRF s = s ∧
        G4_DstRegRegion.computePReg bytesPerGRF s = s) := by
  refine ⟨rfl, ?_, ?_⟩
  · intro h1 h2 h3
    unfold G4_SrcRegRegion.computePReg
    rw [h1, h2, h3]
    simp only [Bool.and_self, if_true]
  · intro h
    have hsrc : G4_SrcRegRegion.computePReg bytesPerGRF s = s := by
      unfold G4_SrcRegRegion.computePReg
      rcases h with h | h | h
      · rw [h]
        simp
      · rw [h]
        simp
      · rw [h]
        by_cases hb : s.baseIsRegVar && s.basePhyRegAssigned
        · rw [if_pos hb, if_neg (by simp)]
        · rw [if_neg hb]
    have hdst : G4_DstRegRegion.computePReg bytesPerGRF s = s := by
      unfold G4_DstRegRegion.computePReg
      rcases h with h | h | h
      · rw [h]
        simp
      · rw [h]
        simp
      · rw [h]
        by_cases hb : s.baseIsRegVar && s.basePhyRegAssigned
        · rw [if_pos hb, if_neg (by simp)]
        · rw [if_neg hb]
    exact ⟨hsrc, hdst⟩

/-- Closed witness for C10 at a concrete operand: a GRF-assigned base at
register 3, sub-register 2, declare element size 4, operand type size 2,
with 32 bytes per GRF. -/
theorem computePReg_src_dst_equiv_witness :
    G4_SrcRegRegion.computePReg 32
        ⟨true, true, true, 3, 2, 4, 2, 0⟩ =
      { (⟨true, true, true, 3, 2, 4, 2, 0⟩ : OperandState) with
        grfBaseOffset := 104 } := by
  have h := (computePReg_src_dst_equiv 32 ⟨true, true, true, 3, 2, 4, 2, 0⟩).2.1
    rfl rfl rfl
  rw [h]
  rfl

/-- `AugmentationMasks` from GraphColor.h: classification of a live
range's SIMD execution-channel pattern. -/
inductive AugmentationMasks where
  | Undetermined
  | Default16Bit
  | Default32Bit
  | Default64Bit
  | DefaultPredicateMask
  | NonDefault
  deriving DecidableEq

/-- Modelled from the spec: the default mask classes of `AugmentationMasks`
(default 16/32/64-bit width or predicate mask); `NonDefault` and
`Undetermined` are not default. -/
def isDefaultMask : AugmentationMasks → Bool
  | .Default16Bit => true
  | .Default32Bit => true
  | .Default64Bit => true
  | .DefaultPredicateMask => true
  | _ => false

/-- Modelled from the spec: the edge decision of
`Augmentation::handleSIMDIntf` (body not under src/): two concurrently
live ranges with the same default mask (the mask value encodes the
bit-width) need no edge — hardware channel disjointness guarantees
safety; differing masks or any non-default mask require a full
interference edge.  Returns true exactly when an edge is inserted. -/
def handleSIMDIntf (m1 m2 : AugmentationMasks) : Bool :=
  !(decide (m1 = m2) && isDefaultMask m1)

/-- One live interval record of the augmentation sweep: dense id, lexical
start and end points, and the augmentation mask of the declare. -/
structure AugDcl where
  id : Nat
  startI : Nat
  endI : Nat
  mask : AugmentationMasks
  deriving DecidableEq

/-- Modelled from the spec: one step of the augmentation sweep — the new
interval is compared against every still-active (concurrently live)
interval and a full edge is inserted exactly for the pairs
`handleSIMDIntf` selects. -/
def buildSIMDIntfDcl (newDcl : AugDcl) (active : List AugDcl) : List (Nat × Nat) :=
  (active.filter (fun d => handleSIMDIntf d.mask newDcl.mask)).map
    (fun d => (d.id, newDcl.id))

/-- C3: during the augmentation sweep, a still-active interval with the
same default mask (hence the same bit-width) as the new interval receives
no interference edge even though the two lexical intervals overlap, while
an active interval whose mask differs from the new one, or where either
mask is non-default, receives a full interference edge. -/
theorem handleSIMDIntf_mask_rule (newDcl : AugDcl) (active : List AugDcl)
    (hids : active.Pairwise (fun a b => a.id ≠ b.id))
    (d : AugDcl) (hmem : d ∈ active) :
    (d.mask = newDcl.mask → isDefaultMask d.mask = true →
      (d.id, newDcl.id) ∉ buildSIMDIntfDcl newDcl active) ∧
    ((d.mask ≠ newDcl.mask ∨ isDefaultMask d.mask = false ∨
        isDefaultMask newDcl.mask = false) →
      (d.id, newDcl.id) ∈ buildSIMDIntfDcl newDcl active) := by
  constructor
  · intro hsame hdef hin
    unfold buildSIMDIntfDcl at hin
    rcases List.mem_map.mp hin with ⟨d', hd', hpair⟩
    have hid : d'.id = d.id := (Prod.mk.injEq _ _ _ _).mp hpair |>.1
    have hd'mem : d' ∈ active := List.mem_of_mem_filter hd'
    have hd'pred : handleSIMDIntf d'.mask newDcl.mask = true :=
      (List.mem_filter.mp hd').2
    have hsymm : Symmetric (fun a b : AugDcl => a.id ≠ b.id) :=
      fun a b h he => h he.symm
    have hdd : d' = d := by
      by_contra hne
      exact (List.Pairwise.forall hsymm hids hd'mem hmem hne) hid
    rw [hdd] at hd'pred
    unfold handleSIMDIntf at hd'pred
    rw [hsame] at hd'pred
    rw [hsame] at hdef
    simp [hdef] at hd'pred
  · intro hcond
    unfold buildSIMDIntfDcl
    apply List.mem_map.mpr
    refine ⟨d, ?_, rfl⟩
    apply List.mem_filter.mpr
    refine ⟨hmem, ?_⟩
    unfold handleSIMDIntf
    rcases hcond with h | h | h
    · simp [h]
    · simp [h]
    · by_cases he : d.mask = newDcl.mask
      · simp [he, h]
      · simp [he]

/-- Closed witness for C3: a new interval with `Default32Bit` mask against
an active overlapping interval with the same mask gets no edge, and
against an active `NonDefault` interval gets an edge. -/
theorem handleSIMDIntf_mask_rule_witness :
    ((0, 2) ∉ buildSIMDIntfDcl ⟨2, 0, 10, .Default32Bit⟩
        [⟨0, 2, 8, .Default32Bit⟩, ⟨1, 3, 9, .NonDefault⟩]) ∧
    ((1, 2) ∈ buildSIMDIntfDcl ⟨2, 0, 10, .Default32Bit⟩
        [⟨0, 2, 8, .Default32Bit⟩, ⟨1, 3, 9, .NonDefault⟩]) :=
  ⟨(handleSIMDIntf_mask_rule ⟨2, 0, 10, .Default32Bit⟩
      [⟨0, 2, 8, .Default32Bit⟩, ⟨1, 3, 9, .NonDefault⟩]
      (by simp) ⟨0, 2, 8, .Default32Bit⟩ (by simp)).1 rfl rfl,
   (handleSIMDIntf_mask_rule ⟨2, 0, 10, .Default32Bit⟩
      [⟨0, 2, 8, .Default32Bit⟩, ⟨1, 3, 9, .NonDefault⟩]
      (by simp) ⟨1, 3, 9, .NonDefault⟩ (by simp)).2
      (Or.inr (Or.inl rfl))⟩

/-- Sort key of the augmentation live-interval ordering: end point first,
start point second. -/
def intervalKey (d : AugDcl) : Nat × Nat := (d.endI, d.startI)

/-- Modelled from the spec: the ordering of `criticalCmpForEndInterval`
(body not under src/) — ascending interval end point, ties broken by
ascending start point. -/
def intervalLE (a b : AugDcl) : Bool :=
  decide (a.endI < b.endI) ||
    (decide (a.endI = b.endI) && decide (a.startI ≤ b.startI))

/-- Modelled from the spec: `Augmentation::sortLiveIntervals` (body not
under src/) produces the globally sorted live-interval ordering under
`intervalLE`. -/
def sortLiveIntervals (l : List AugDcl) : List AugDcl :=
  l.mergeSort intervalLE

/-- Lexicographic end-then-start order on sort keys, as a proposition. -/
def leKey (x y : Nat × Nat) : Prop :=
  x.1 < y.1 ∨ (x.1 = y.1 ∧ x.2 ≤ y.2)

instance instLeKeyAntisymm : IsAntisymm (Nat × Nat) leKey where
  antisymm a b hab hba := by
    unfold leKey at hab hba
    have h1 : a.1 = b.1 := by omega
    have h2 : a.2 = b.2 := by omega
    exact Prod.ext h1 h2

theorem intervalLE_trans (a b c : AugDcl) (h1 : intervalLE a b = true)
    (h2 : intervalLE b c = true) : intervalLE a c = true := by
  unfold intervalLE at h1 h2 ⊢
  simp only [Bool.or_eq_true, Bool.and_eq_true, decide_eq_true_eq] at h1 h2 ⊢
  omega

theorem intervalLE_total (a b : AugDcl) :
    (intervalLE a b || intervalLE b a) = true := by
  unfold intervalLE
  simp only [Bool.or_eq_true, Bool.and_eq_true, decide_eq_true_eq]
  omega

theorem intervalLE_to_leKey (a b : AugDcl) (h : intervalLE a b = true) :
    leKey (intervalKey a) (intervalKey b) := by
  unfold intervalLE at h
  unfold leKey intervalKey
  simp only [Bool.or_eq_true, Bool.and_eq_true, decide_eq_true_eq] at h
  simpa using h

/-- C8: the augmentation interval ordering is deterministic: the sorted
sequence is a permutation of the input ordered by ascending end point with
ties broken by ascending start point, and any other arrangement of the
same intervals that respects this ordering carries the identical key
sequence — the processing order is a strict function of (end, start),
with no randomization (and hence the register assignment computed from it
is reproduced on identical input). -/
theorem sortLiveIntervals_deterministic (l : List AugDcl) :
    (sortLiveIntervals l).Perm l ∧
    (sortLiveIntervals l).Pairwise (fun a b => intervalLE a b = true) ∧
    (∀ l' : List AugDcl,
      l'.Perm l → l'.Pairwise (fun a b => intervalLE a b = true) →
      l'.map intervalKey = (sortLiveIntervals l).map intervalKey) := by
  refine ⟨List.mergeSort_perm l intervalLE,
    List.sorted_mergeSort intervalLE_trans intervalLE_total l, ?_⟩
  intro l' hperm hsorted
  have hp : (l'.map intervalKey).Perm ((sortLiveIntervals l).map intervalKey) :=
    (hperm.map _).trans ((List.mergeSort_perm l intervalLE).map _).symm
  have hs1 : List.Sorted leKey (l'.map intervalKey) :=
    List.Pairwise.map _ (fun a b h => intervalLE_to_leKey a b h) hsorted
  have hs2 : List.Sorted leKey ((sortLiveIntervals l).map intervalKey) :=
    List.Pairwise.map _ (fun a b h => intervalLE_to_leKey a b h)
      (List.sorted_mergeSort intervalLE_trans intervalLE_total l)
  exact List.eq_of_perm_of_sorted hp hs1 hs2

/-- Closed witness for C8 at a concrete input: two intervals; the interval
ending at 3 precedes the one ending at 9 in every legal arrangement. -/
theorem sortLiveIntervals_deterministic_witness :
    [(⟨1, 0, 3, .Undetermined⟩ : AugDcl), ⟨0, 5, 9, .Undetermined⟩].map intervalKey =
      (sortLiveIntervals
        [⟨0, 5, 9, .Undetermined⟩, ⟨1, 0, 3, .Undetermined⟩]).map intervalKey :=
  (sortLiveIntervals_deterministic
      [⟨0, 5, 9, .Undetermined⟩, ⟨1, 0, 3, .Undetermined⟩]).2.2
    [⟨1, 0, 3, .Undetermined⟩, ⟨0, 5, 9, .Undetermined⟩]
    (by decide) (by decide)

/-- One coloring candidate: the live range's dense id and the number of
adjacent registers its register-class footprint consumes
(`LiveRange::numRegNeeded`). -/
structure ColorLR where
  id : Nat
  numRegNeeded : Nat
  deriving DecidableEq

/-- Two register ranges `[s1, s1+l1)` and `[s2, s2+l2)` overlap. -/
def rangesOverlap (s1 l1 s2 l2 : Nat) : Bool :=
  decide (s1 < s2 + l2) && decide (s2 < s1 + l1)

/-- Outcome of one coloring pass: colored live ranges as
(id, first register, footprint) triples, and the spilled id list
(`GraphColor::spilledLRs`). -/
structure ColorResult where
  colored : List (Nat × Nat × Nat)
  spilledLRs : List Nat

/-- Physical storage assigned to a live range: a register range (as set
by `LiveRange::setPhyReg`) or a distinct spill slot. -/
inductive PhyAssignment where
  | reg (start len : Nat)
  | spill (slot : Nat)
  deriving DecidableEq

/-- Two physical storages overlap: register ranges that intersect, or the
same spill slot; a register range never overlaps a memory slot. -/
def storageOverlap : PhyAssignment → PhyAssignment → Bool
  | .reg s1 l1, .reg s2 l2 => rangesOverlap s1 l1 s2 l2
  | .spill a, .spill b => decide (a = b)
  | _, _ => false

/-- A candidate placement at registers `[s, s+l)` is legal when no
already-colored interfering neighbor's range overlaps it. -/
def legalAt (intf : Nat → Nat → Bool) (colored : List (Nat × Nat × Nat))
    (i s l : Nat) : Bool :=
  colored.all fun e =>
    !(intf i e.1 || intf e.1 i) || !rangesOverlap s l e.2.1 e.2.2

/-- Lowest legal first register for footprint `l` within the register
budget, if any. -/
def findColor (intf : Nat → Nat → Bool) (colored : List (Nat × Nat × Nat))
    (numColors i l : Nat) : Option Nat :=
  (List.range numColors).find? fun s =>
    decide (s + l ≤ numColors) && legalAt intf colored i s l

/-- Modelled from the spec: one step of `GraphColor::assignColors`
(body not under src/) — assign the lowest free color consistent with the
interference constraints, or mark the live range spilled (it is not
retried within the pass). -/
def assignColorsStep (intf : Nat → Nat → Bool) (numColors : Nat)
    (acc : ColorResult) (lr : ColorLR) : ColorResult :=
  match findColor intf acc.colored numColors lr.id lr.numRegNeeded with
  | some s => { acc with colored := (lr.id, s, lr.numRegNeeded) :: acc.colored }
  | none => { acc with spilledLRs := lr.id :: acc.spilledLRs }

/-- Modelled from the spec: the `GraphColor::assignColors` pass over the
color ordering (body not under src/). -/
def assignColors (intf : Nat → Nat → Bool) (numColors : Nat)
    (lrs : List ColorLR) : ColorResult :=
  lrs.foldl (assignColorsStep intf numColors) ⟨[], []⟩

/-- Physical storage the pass assigned to id `i`: the register range when
colored, a distinct per-id spill slot when spilled, nothing otherwise. -/
def phyAssign (r : ColorResult) (i : Nat) : Option PhyAssignment :=
  match r.colored.find? (fun e => decide (e.1 = i)) with
  | some e => some (.reg e.2.1 e.2.2)
  | none => if i ∈ r.spilledLRs then some (.spill i) else none

/-- `GraphColor::requireSpillCode` from GraphColor.h:
`!spilledLRs.empty()`. -/
def requireSpillCode (r : ColorResult) : Bool := !r.spilledLRs.isEmpty

/-- The pairwise coloring invariant: interfering colored entries occupy
disjoint register ranges. -/
def coloredOk (intf : Nat → Nat → Bool) (e1 e2 : Nat × Nat × Nat) : Prop :=
  (intf e1.1 e2.1 || intf e2.1 e1.1) = true →
    rangesOverlap e1.2.1 e1.2.2 e2.2.1 e2.2.2 = false

theorem rangesOverlap_comm (s1 l1 s2 l2 : Nat) :
    rangesOverlap s1 l1 s2 l2 = rangesOverlap s2 l2 s1 l1 := by
  unfold rangesOverlap
  rw [Bool.and_comm]

theorem coloredOk_symm (intf : Nat → Nat → Bool) :
    Symmetric (coloredOk intf) := by
  intro e1 e2 h hintf
  rw [rangesOverlap_comm]
  exact h (by rw [Bool.or_comm]; exact hintf)

theorem assignColorsStep_inv (intf : Nat → Nat → Bool) (numColors : Nat)
    (acc : ColorResult) (lr : ColorLR)
    (hinv : acc.colored.Pairwise (coloredOk intf)) :
    ((assignColorsStep intf numColors acc lr).colored).Pairwise (coloredOk intf) := by
  unfold assignColorsStep
  cases hfind : findColor intf acc.colored numColors lr.id lr.numRegNeeded with
  | none => exact hinv
  | some s =>
      refine List.Pairwise.cons ?_ hinv
      intro e hmem hintf
      have hpred := List.find?_some hfind
      simp only [Bool.and_eq_true] at hpred
      have hall := List.all_eq_true.mp hpred.2 e hmem
      simp only [Bool.or_eq_true, Bool.not_eq_true] at hall
      rcases hall with h | h
      · rw [hintf] at h
        exact absurd h (by simp)
      · simpa using h

theorem assignColors_inv (intf : Nat → Nat → Bool) (numColors : Nat)
    (lrs : List ColorLR) (acc : ColorResult)
    (hinv : acc.colored.Pairwise (coloredOk intf)) :
    ((lrs.foldl (assignColorsStep intf numColors) acc).colored).Pairwise
      (coloredOk intf) := by
  induction lrs generalizing acc with
  | nil => exact hinv
  | cons lr t ih =>
      exact ih (assignColorsStep intf numColors acc lr)
        (assignColorsStep_inv intf numColors acc lr hinv)

/-- C1: for every coloring the engine produces, two live ranges joined by
an interference edge never receive overlapping physical storage — colored
ranges get disjoint register ranges and spilled ranges get distinct spill
slots, and a register range never overlaps a memory slot. -/
theorem interference_no_storage_overlap (intf : Nat → Nat → Bool)
    (numColors : Nat) (lrs : List ColorLR) (v1 v2 : Nat)
    (h12 : intf v1 v2 = true) (hne : v1 ≠ v2) (a1 a2 : PhyAssignment)
    (h1 : phyAssign (assignColors intf numColors lrs) v1 = some a1)
    (h2 : phyAssign (assignColors intf numColors lrs) v2 = some a2) :
    storageOverlap a1 a2 = false := by
  have hinv := assignColors_inv intf numColors lrs ⟨[], []⟩ List.Pairwise.nil
  unfold phyAssign at h1 h2
  cases hf1 : (assignColors intf numColors lrs).colored.find?
      (fun e => decide (e.1 = v1)) with
  | some e1 =>
      rw [hf1] at h1
      have ha1 : a1 = .reg e1.2.1 e1.2.2 := (Option.some.inj h1).symm
      have hid1 : e1.1 = v1 := by simpa using List.find?_some hf1
      have hm1 : e1 ∈ (assignColors intf numColors lrs).colored :=
        List.mem_of_find?_eq_some hf1
      cases hf2 : (assignColors intf numColors lrs).colored.find?
          (fun e => decide (e.1 = v2)) with
      | some e2 =>
          rw [hf2] at h2
          have ha2 : a2 = .reg e2.2.1 e2.2.2 := (Option.some.inj h2).symm
          have hid2 : e2.1 = v2 := by simpa using List.find?_some hf2
          have hm2 : e2 ∈ (assignColors intf numColors lrs).colored :=
            List.mem_of_find?_eq_some hf2
          have hne12 : e1 ≠ e2 := fun he => hne (hid1 ▸ hid2 ▸ congrArg Prod.fst he)
          have hok : coloredOk intf e1 e2 :=
            List.Pairwise.forall (coloredOk_symm intf) hinv hm1 hm2 hne12
          have hov : rangesOverlap e1.2.1 e1.2.2 e2.2.1 e2.2.2 = false := by
            apply hok
            rw [hid1, hid2, h12]
            rfl
          rw [ha1, ha2]
          simpa [storageOverlap] using hov
      | none =>
          rw [hf2] at h2
          by_cases hsp : v2 ∈ (assignColors intf numColors lrs).spilledLRs
          · rw [if_pos hsp] at h2
            have ha2 : a2 = .spill v2 := (Option.some.inj h2).symm
            rw [ha1, ha2]
            rfl
          · rw [if_neg hsp] at h2
            exact absurd h2 (by simp)
  | none =>
      rw [hf1] at h1
      by_cases hsp1 : v1 ∈ (assignColors intf numColors lrs).spilledLRs
      · rw [if_pos hsp1] at h1
        have ha1 : a1 = .spill v1 := (Option.some.inj h1).symm
        cases hf2 : (assignColors intf numColors lrs).colored.find?
            (fun e => decide (e.1 = v2)) with
        | some e2 =>
            rw [hf2] at h2
            have ha2 : a2 = .reg e2.2.1 e2.2.2 := (Option.some.inj h2).symm
            rw [ha1, ha2]
            rfl
        | none =>
            rw [hf2] at h2
            by_cases hsp2 : v2 ∈ (assignColors intf numColors lrs).spilledLRs
            · rw [if_pos hsp2] at h2
              have ha2 : a2 = .spill v2 := (Option.some.inj h2).symm
              rw [ha1, ha2]
              simpa [storageOverlap] using hne
            · rw [if_neg hsp2] at h2
              exact absurd h2 (by simp)
      · rw [if_neg hsp1] at h1
        exact absurd h1 (by simp)

/-- Interference of the three pairwise-conflicting variables 0, 1, 2 used
by the concrete witnesses. -/
def triIntf : Nat → Nat → Bool := fun a b =>
  ((a == 0) && (b == 1)) || ((a == 1) && (b == 2)) || ((a == 0) && (b == 2))

/-- Closed witness for C1: three pairwise-interfering unit-footprint live
ranges under a budget of two registers; ids 0 and 1 are colored at
registers 0 and 1 and their storage does not overlap. -/
theorem interference_no_storage_overlap_witness :
    storageOverlap (.reg 0 1) (.reg 1 1) = false :=
  interference_no_storage_overlap triIntf 2 [⟨0, 1⟩, ⟨1, 1⟩, ⟨2, 1⟩] 0 1
    (by decide) (by decide) (.reg 0 1) (.reg 1 1) (by rfl) (by rfl)

theorem assignColors_mono (intf : Nat → Nat → Bool) (numColors : Nat)
    (lrs : List ColorLR) (acc : ColorResult) :
    (∀ e, e ∈ acc.colored →
      e ∈ (lrs.foldl (assignColorsStep intf numColors) acc).colored) ∧
    (∀ i, i ∈ acc.spilledLRs →
      i ∈ (lrs.foldl (assignColorsStep intf numColors) acc).spilledLRs) := by
  induction lrs generalizing acc with
  | nil => exact ⟨fun e he => he, fun i hi => hi⟩
  | cons lr t ih =>
      constructor
      · intro e he
        apply (ih (assignColorsStep intf numColors acc lr)).1
        unfold assignColorsStep
        cases findColor intf acc.colored numColors lr.id lr.numRegNeeded with
        | some s => exact List.mem_cons_of_mem _ he
        | none => exact he
      · intro i hi
        apply (ih (assignColorsStep intf numColors acc lr)).2
        unfold assignColorsStep
        cases findColor intf acc.colored numColors lr.id lr.numRegNeeded with
        | some s => exact hi
        | none => exact List.mem_cons_of_mem _ hi

theorem assignColors_total (intf : Nat → Nat → Bool) (numColors : Nat)
    (lrs : List ColorLR) (acc : ColorResult) (lr : ColorLR) (hmem : lr ∈ lrs) :
    (∃ e ∈ (lrs.foldl (assignColorsStep intf numColors) acc).colored,
      e.1 = lr.id) ∨
    lr.id ∈ (lrs.foldl (assignColorsStep intf numColors) acc).spilledLRs := by
  induction lrs generalizing acc with
  | nil => cases hmem
  | cons hd t ih =>
      rcases List.mem_cons.mp hmem with heq | htl
      · subst heq
        unfold List.foldl
        cases hfind : findColor intf acc.colored numColors lr.id lr.numRegNeeded with
        | some s =>
            left
            refine ⟨(lr.id, s, lr.numRegNeeded), ?_, rfl⟩
            apply (assignColors_mono intf numColors t
              (assignColorsStep intf numColors acc lr)).1
            unfold assignColorsStep
            rw [hfind]
            exact List.mem_cons_self _ _
        | none =>
            right
            apply (assignColors_mono intf numColors t
              (assignColorsStep intf numColors acc lr)).2
            unfold assignColorsStep
            rw [hfind]
            exact List.mem_cons_self _ _
      · exact ih (assignColorsStep intf numColors acc hd) htl

/-- C7: after a coloring pass the engine reports the need for spill code
exactly when the spilled list is non-empty; every input live range is
either colored or a member of the spilled list (a range that found no
legal color is spilled, not retried within the pass); and when no spill
code is required every input live range was colored. -/
theorem requireSpillCode_iff_spilled (intf : Nat → Nat → Bool)
    (numColors : Nat) (lrs : List ColorLR) :
    (requireSpillCode (assignColors intf numColors lrs) = true ↔
      (assignColors intf numColors lrs).spilledLRs ≠ []) ∧
    (∀ lr ∈ lrs,
      (∃ e ∈ (assignColors intf numColors lrs).colored, e.1 = lr.id) ∨
      lr.id ∈ (assignColors intf numColors lrs).spilledLRs) ∧
    (requireSpillCode (assignColors intf numColors lrs) = false →
      ∀ lr ∈ lrs,
        ∃ e ∈ (assignColors intf numColors lrs).colored, e.1 = lr.id) := by
  refine ⟨?_, ?_, ?_⟩
  · unfold requireSpillCode
    simp [List.isEmpty_iff]
  · intro lr hmem
    exact assignColors_total intf numColors lrs ⟨[], []⟩ lr hmem
  · intro hno lr hmem
    have hempty : (assignColors intf numColors lrs).spilledLRs = [] := by
      unfold requireSpillCode at hno
      simpa [List.isEmpty_iff] using hno
    rcases assignColors_total intf numColors lrs ⟨[], []⟩ lr hmem with h | h
    · exact h
    · have h2 : lr.id ∈ (assignColors intf numColors lrs).spilledLRs := h
      rw [hempty] at h2
      cases h2

/-- Closed witness for C7: with the pairwise-conflicting triangle and two
registers, id 2 spills, so spill code is required. -/
theorem requireSpillCode_iff_spilled_witness :
    requireSpillCode (assignColors triIntf 2 [⟨0, 1⟩, ⟨1, 1⟩, ⟨2, 1⟩]) = true :=
  (requireSpillCode_iff_spilled triIntf 2 [⟨0, 1⟩, ⟨1, 1⟩, ⟨2, 1⟩]).1.mpr
    (by decide)

/-- Outcome of the global register-allocation driver: success after a
number of iterations, escalation to fail-safe mode, or a fatal
compilation failure. -/
inductive RAResult where
  | success (iterations : Nat)
  | failsafe (iterations : Nat)
  | fatalError
  deriving DecidableEq

/-- The spilled-variable set one coloring produces, restricted to the
current candidates and without duplicates.  `colorOnce` abstracts one
coloring pass over the candidate list. -/
def spillSet (colorOnce : List Nat → List Nat) (cands : List Nat) : List Nat :=
  ((colorOnce cands).filter (fun v => decide (v ∈ cands))).dedup

/-- The convergence check of the retry loop: true when a previous
iteration exists and its spill count did not strictly decrease. -/
def notDecreased (prev : Option Nat) (cur : Nat) : Bool :=
  match prev with
  | some p => decide (p ≤ cur)
  | none => false

/-- Modelled from the spec: the spill-and-retry loop of
`GlobalRA::coloringRegAlloc` (body not under src/).  Each iteration
colors (producing `spillSet`); an empty spill set is success; a spill
count that fails to strictly decrease escalates to fail-safe mode instead
of retrying; an exhausted retry budget is a fatal compilation failure;
otherwise the spilled variables are rewritten to memory (removed from the
candidate set — their replacement temporaries do not spill again) and the
loop retries with `iterNo` (the `GlobalRA::iterNo` counter) advanced. -/
def raLoop (c : List Nat → List Nat) : Nat → Nat → List Nat → Option Nat → RAResult
  | 0, iterNo, cands, prev =>
    if (spillSet c cands).isEmpty then .success iterNo
    else if notDecreased prev (spillSet c cands).length then .failsafe iterNo
    else .fatalError
  | r + 1, iterNo, cands, prev =>
    if (spillSet c cands).isEmpty then .success iterNo
    else if notDecreased prev (spillSet c cands).length then .failsafe iterNo
    else raLoop c r (iterNo + 1)
        (cands.filter (fun v => decide (v ∉ spillSet c cands)))
        (some (spillSet c cands).length)

/-- Modelled from the spec: entry point of the retry loop with the
configured maximum iteration count as the retry budget. -/
def coloringRegAlloc (c : List Nat → List Nat) (maxIter : Nat)
    (cands : List Nat) : RAResult :=
  raLoop c maxIter 0 cands none

/-- Sequence of spilled-set sizes observed along the retry loop's
execution. -/
def raTrace (c : List Nat → List Nat) : Nat → List Nat → Option Nat → List Nat
  | 0, cands, prev =>
    if (spillSet c cands).isEmpty then []
    else if notDecreased prev (spillSet c cands).length then []
    else [(spillSet c cands).length]
  | r + 1, cands, prev =>
    if (spillSet c cands).isEmpty then []
    else if notDecreased prev (spillSet c cands).length then []
    else (spillSet c cands).length ::
      raTrace c r (cands.filter (fun v => decide (v ∉ spillSet c cands)))
        (some (spillSet c cands).length)

theorem raLoop_success_le (c : List Nat → List Nat) :
    ∀ rem i cands prev n, raLoop c rem i cands prev = .success n → n ≤ i + rem := by
  intro rem
  induction rem with
  | zero =>
      intro i cands prev n hrun
      rw [raLoop] at hrun
      split at hrun
      · injection hrun with h
        omega
      · split at hrun
        · exact RAResult.noConfusion hrun
        · exact RAResult.noConfusion hrun
  | succ r ih =>
      intro i cands prev n hrun
      rw [raLoop] at hrun
      split at hrun
      · injection hrun with h
        omega
      · split at hrun
        · exact RAResult.noConfusion hrun
        · have := ih (i + 1) _ _ n hrun
          omega

theorem raTrace_head_lt (c : List Nat → List Nat) :
    ∀ rem cands pv h, (raTrace c rem cands (some pv)).head? = some h → h < pv := by
  intro rem cands pv h hhead
  cases rem with
  | zero =>
      rw [raTrace] at hhead
      split at hhead
      · exact Option.noConfusion hhead
      · split at hhead
        · exact Option.noConfusion hhead
        · next hnd =>
            injection hhead with he
            unfold notDecreased at hnd
            simp only [decide_eq_true_eq] at hnd
            rw [← he]
            omega
  | succ r =>
      rw [raTrace] at hhead
      split at hhead
      · exact Option.noConfusion hhead
      · split at hhead
        · exact Option.noConfusion hhead
        · next hnd =>
            injection hhead with he
            unfold notDecreased at hnd
            simp only [decide_eq_true_eq] at hnd
            rw [← he]
            omega

theorem raTrace_chain (c : List Nat → List Nat) :
    ∀ rem cands prev,
      List.Chain' (fun a b => b < a) (raTrace c rem cands prev) := by
  intro rem
  induction rem with
  | zero =>
      intro cands prev
      rw [raTrace]
      split
      · exact List.chain'_nil
      · split
        · exact List.chain'_nil
        · exact List.chain'_singleton _
  | succ r ih =>
      intro cands prev
      rw [raTrace]
      split
      · exact List.chain'_nil
      · split
        · exact List.chain'_nil
        · apply List.chain'_cons'.mpr
          refine ⟨?_, ih _ _⟩
          intro b hb
          exact raTrace_head_lt c r _ _ b hb

/-- C2: the spill-and-retry loop terminates within the retry budget: a
successful run reports at most the configured maximum iteration count;
with the retry budget exhausted, a non-empty spill set yields a fatal
compilation failure instead of a further iteration; a spill count that
fails to strictly decrease escalates to fail-safe immediately, so across
the retry iterations the loop actually performs the spilled-set sizes are
strictly decreasing (in particular non-increasing). -/
theorem coloringRegAlloc_bounded_retry (c : List Nat → List Nat) (m : Nat)
    (cands : List Nat) :
    (∀ n, coloringRegAlloc c m cands = .success n → n ≤ m) ∧
    (∀ i cs p, (spillSet c cs).isEmpty = false →
      notDecreased p (spillSet c cs).length = false →
      raLoop c 0 i cs p = .fatalError) ∧
    (∀ rem i cs pv, (spillSet c cs).isEmpty = false →
      pv ≤ (spillSet c cs).length →
      raLoop c rem i cs (some pv) = .failsafe i) ∧
    List.Chain' (fun a b => b < a) (raTrace c m cands none) := by
  refine ⟨?_, ?_, ?_, raTrace_chain c m cands none⟩
  · intro n hrun
    have := raLoop_success_le c m 0 cands none n hrun
    omega
  · intro i cs p h1 h2
    rw [raLoop, h1, h2]
    rfl
  · intro rem i cs pv h1 h2
    have hnd : notDecreased (some pv) (spillSet c cs).length = true := by
      unfold notDecreased
      simpa using h2
    cases rem with
    | zero =>
        rw [raLoop, h1, hnd]
        rfl
    | succ r =>
        rw [raLoop, h1, hnd]
        rfl

/-- Closed witness for C2: a coloring that always spills variable 0, a
retry budget of zero and candidates 0 and 1 — the retry cap is exceeded
and the loop fails fatally rather than iterating. -/
theorem coloringRegAlloc_bounded_retry_witness :
    raLoop (fun _ => [0]) 0 0 [0, 1] none = .fatalError :=
  (coloringRegAlloc_bounded_retry (fun _ => [0]) 0 [0, 1]).2.1 0 [0, 1] none
    (by decide) (by decide)

end VISA
